import Mathlib

/-!
Verification of `src/runtime_ccall.cpp` (Julia's foreign-function bridge):
library-handle cache (`jl_get_library`, `jl_load_and_lookup`), CPU feature
string formatting (`jl_get_cpu_features_llvm`), and the cfunction trampoline
cache (`jl_get_cfunction_trampoline`, `trampoline_deleter`).

Hash tables (`htable_t`, `std::map`) are modelled as association lists with
the pointer-identity keys modelled as natural numbers; `ptrhash_put`
overwrites an existing binding, `ptrhash_get` returns the bound value or
absence, `ptrhash_remove` deletes the binding.  `malloc` results are
modelled by a monotone allocation counter.  The `#ifdef _OS_WINDOWS_`
sentinel branches of `jl_get_library` are not part of the modelled (non-
Windows) build.
-/

namespace RuntimeCcall

/-- Association-list read, modelling `ptrhash_get` / `std::map::find`. -/
def alookup {κ α : Type} [DecidableEq κ] (k : κ) : List (κ × α) → Option α
  | [] => none
  | (k', v) :: t => if k' = k then some v else alookup k t

/-- Association-list write, modelling `ptrhash_put` / `operator[]` assignment:
overwrite the existing binding, else add a fresh one. -/
def aput {κ α : Type} [DecidableEq κ] (k : κ) (v : α) : List (κ × α) → List (κ × α)
  | [] => [(k, v)]
  | (k', v') :: t => if k' = k then (k, v) :: t else (k', v') :: aput k v t

/-- Association-list delete, modelling `ptrhash_remove`. -/
def aremove {κ α : Type} [DecidableEq κ] (k : κ) : List (κ × α) → List (κ × α)
  | [] => []
  | (k', v) :: t => if k' = k then aremove k t else (k', v) :: aremove k t

theorem alookup_aput_self {κ α : Type} [DecidableEq κ] (k : κ) (v : α) (l : List (κ × α)) :
    alookup k (aput k v l) = some v := by
  induction l with
  | nil => simp [aput, alookup]
  | cons h t ih =>
    obtain ⟨k', v'⟩ := h
    by_cases hk : k' = k <;> simp [aput, alookup, hk, ih]

theorem alookup_aput_ne {κ α : Type} [DecidableEq κ] {k j : κ} (v : α) (l : List (κ × α))
    (hjk : j ≠ k) : alookup j (aput k v l) = alookup j l := by
  induction l with
  | nil => simp [aput, alookup, Ne.symm hjk]
  | cons h t ih =>
    obtain ⟨k', v'⟩ := h
    by_cases hk : k' = k
    · subst hk
      simp [aput, alookup, Ne.symm hjk, hjk]
    · by_cases hj : k' = j <;> simp [aput, alookup, hk, hj, ih, hjk, Ne.symm hjk]

theorem alookup_aremove_self {κ α : Type} [DecidableEq κ] (k : κ) (l : List (κ × α)) :
    alookup k (aremove k l) = none := by
  induction l with
  | nil => simp [aremove, alookup]
  | cons h t ih =>
    obtain ⟨k', v'⟩ := h
    by_cases hk : k' = k <;> simp [aremove, alookup, hk, ih]

theorem alookup_aremove_ne {κ α : Type} [DecidableEq κ] {k j : κ} (l : List (κ × α))
    (hjk : j ≠ k) : alookup j (aremove k l) = alookup j l := by
  induction l with
  | nil => simp [aremove, alookup]
  | cons h t ih =>
    obtain ⟨k', v'⟩ := h
    by_cases hk : k' = k
    · subst hk
      simp [aremove, alookup, Ne.symm hjk, hjk, ih]
    · by_cases hj : k' = j <;> simp [aremove, alookup, hk, hj, ih, hjk, Ne.symm hjk]

/-! ## Library handle cache (`jl_get_library`, `jl_load_and_lookup`)

A native handle is an opaque non-null pointer, modelled as a `Nat`; the
`NULL` handle is `Option.none`.  `libMap` maps a library name to the
contents of its slot (`none` = slot holds `NULL`).  The dynamic loader
`jl_load_dynamic_library` is an external collaborator, passed as a
function from names to `Option Nat` (`none` = load failure). -/

/-- The process-wide `static std::map<std::string, void*> libMap`. -/
structure LibState where
  libMap : List (String × Option Nat)
deriving DecidableEq

/-- The published handle in the map slot for `name` (`none` when the slot is
absent or still holds `NULL`). -/
def slotGet (st : LibState) (name : String) : Option Nat :=
  (alookup name st.libMap).join

/-- `&libMap[f_lib]`: materialize the slot for `name`, default-initialized
to `NULL`, if it is not yet present. -/
def ensureSlot (name : String) (m : List (String × Option Nat)) :
    List (String × Option Nat) :=
  match alookup name m with
  | some _ => m
  | none => (name, none) :: m

/-- `jl_get_library` (source lines 20-45, non-Windows build): `none` as the
name models the `NULL` library (returns `jl_RTLD_DEFAULT_handle`, here
`rtld`); otherwise obtain-or-insert the map slot, return its contents when
non-null, else call the loader and publish a successful result. -/
def jl_get_library (rtld : Nat) (loader : String → Option Nat)
    (f_lib : Option String) (st : LibState) : Option Nat × LibState :=
  match f_lib with
  | none => (some rtld, st)
  | some name =>
    let st1 : LibState := ⟨ensureSlot name st.libMap⟩
    match slotGet st1 name with
    | some hnd => (some hnd, st1)
    | none =>
      match loader name with
      | some hnd => (some hnd, ⟨aput name (some hnd) st1.libMap⟩)
      | none => (none, st1)

/-- Result of `jl_load_and_lookup`: the symbol address, the caller's slot
`*hnd` after the call, the library map state, and whether the slow path
(`jl_get_library`) was taken. -/
structure LoadResult where
  sym : Option Nat
  hnd : Option Nat
  lib : LibState
  attempted : Bool
deriving DecidableEq

/-- `jl_load_and_lookup` (source lines 47-54): read the caller's slot; if it
holds `NULL`, call `jl_get_library` and store the result (even a `NULL`
result) back into the slot; finally look the symbol up via the external
`jl_dlsym` collaborator. -/
def jl_load_and_lookup (rtld : Nat) (loader : String → Option Nat)
    (dlsym : Option Nat → String → Option Nat) (f_lib : Option String)
    (f_name : String) (hnd : Option Nat) (st : LibState) : LoadResult :=
  match hnd with
  | some handle => { sym := dlsym (some handle) f_name, hnd := some handle,
                     lib := st, attempted := false }
  | none =>
    let r := jl_get_library rtld loader f_lib st
    { sym := dlsym r.1 f_name, hnd := r.1, lib := r.2, attempted := true }

/-- A sequence of `jl_get_library` calls (each with its own loader behavior
and argument), folded over the library map state. -/
def runLibCalls (rtld : Nat) (calls : List ((String → Option Nat) × Option String))
    (st : LibState) : LibState :=
  calls.foldl (fun st c => (jl_get_library rtld c.1 c.2 st).2) st

theorem ensureSlot_alookup_ne (name j : String) (m : List (String × Option Nat))
    (hj : j ≠ name) : alookup j (ensureSlot name m) = alookup j m := by
  cases hv : alookup name m with
  | some v => simp [ensureSlot, hv]
  | none => simp [ensureSlot, hv, alookup, Ne.symm hj]

theorem ensureSlot_slot_some (name : String) (m : List (String × Option Nat)) (h : Nat)
    (hs : (alookup name m).join = some h) :
    alookup name (ensureSlot name m) = alookup name m := by
  cases hv : alookup name m with
  | some v => simp [ensureSlot, hv]
  | none => simp [hv] at hs

/-- One `jl_get_library` call never disturbs an already-published handle. -/
theorem slotGet_preserved (rtld : Nat) (loader : String → Option Nat)
    (f_lib : Option String) (st : LibState) (name : String) (h : Nat)
    (hpub : slotGet st name = some h) :
    slotGet (jl_get_library rtld loader f_lib st).2 name = some h := by
  match f_lib with
  | none => exact hpub
  | some j =>
    have hens : alookup name (ensureSlot j st.libMap) = alookup name st.libMap := by
      by_cases hj : j = name
      · subst hj; exact ensureSlot_slot_some j st.libMap h hpub
      · exact ensureSlot_alookup_ne j name st.libMap (Ne.symm hj)
    simp only [jl_get_library]
    split
    · simpa [slotGet, hens] using hpub
    · split
      · rename_i hnd heq
        by_cases hj : j = name
        · subst hj
          have hmiss : slotGet (⟨ensureSlot j st.libMap⟩ : LibState) j = none := by
            assumption
          rw [show slotGet (⟨ensureSlot j st.libMap⟩ : LibState) j
              = slotGet st j from by simp [slotGet, hens]] at hmiss
          rw [hpub] at hmiss
          exact absurd hmiss (by simp)
        · have : alookup name (aput j (some hnd) (ensureSlot j st.libMap))
              = alookup name (ensureSlot j st.libMap) :=
            alookup_aput_ne _ _ (Ne.symm hj)
          simpa [slotGet, this, hens] using hpub
      · simpa [slotGet, hens] using hpub

/-- A published handle survives any sequence of `jl_get_library` calls. -/
theorem slotGet_runLibCalls (rtld : Nat) (name : String) (h : Nat) :
    ∀ (calls : List ((String → Option Nat) × Option String)) (st : LibState),
      slotGet st name = some h →
      slotGet (runLibCalls rtld calls st) name = some h := by
  intro calls
  induction calls with
  | nil => intro st hpub; exact hpub
  | cons c t ih =>
    intro st hpub
    exact ih _ (slotGet_preserved rtld c.1 c.2 st name h hpub)

/-- When the slot for `name` is already published, `jl_get_library` returns
the published handle and does not change the state. -/
theorem jl_get_library_hit (rtld : Nat) (loader : String → Option Nat)
    (st : LibState) (name : String) (h : Nat) (hpub : slotGet st name = some h) :
    (jl_get_library rtld loader (some name) st).1 = some h := by
  have hens : alookup name (ensureSlot name st.libMap) = alookup name st.libMap :=
    ensureSlot_slot_some name st.libMap h hpub
  have hslot : slotGet (⟨ensureSlot name st.libMap⟩ : LibState) name = some h := by
    simpa [slotGet, hens] using hpub
  simp only [jl_get_library]
  split
  · rename_i hnd heq
    rw [hslot] at heq
    simpa using heq.symm
  · rename_i heq
    rw [hslot] at heq
    exact absurd heq (by simp)

/-- A successful `jl_get_library` call publishes the returned handle. -/
theorem jl_get_library_publishes (rtld : Nat) (loader : String → Option Nat)
    (st : LibState) (name : String) (h : Nat) (st1 : LibState)
    (hcall : jl_get_library rtld loader (some name) st = (some h, st1)) :
    slotGet st1 name = some h := by
  simp only [jl_get_library] at hcall
  split at hcall
  · rename_i hnd heq
    obtain ⟨h1, h2⟩ := Prod.mk.injEq .. ▸ hcall
    cases h1
    rw [← h2]
    simpa using heq
  · split at hcall
    · rename_i hmiss hnd heq
      obtain ⟨h1, h2⟩ := Prod.mk.injEq .. ▸ hcall
      cases h1
      rw [← h2]
      simp [slotGet, alookup_aput_self]
    · simp at hcall

/-- Reading the slot for `name` through `ensureSlot` sees the same published
handle as before: default-initializing an absent slot publishes nothing. -/
theorem slotGet_ensureSlot (name : String) (m : List (String × Option Nat)) :
    (alookup name (ensureSlot name m)).join = (alookup name m).join := by
  cases hv : alookup name m with
  | some v => simp [ensureSlot, hv]
  | none => simp [ensureSlot, hv, alookup]

/-- Claim C3: once `jl_get_library` has returned a non-null handle for a
name, every later call with that name returns the identical handle, and the
handle published in the library map for that name is never replaced or
removed by any sequence of further calls. -/
theorem jl_get_library_idempotent (rtld : Nat) (loader : String → Option Nat)
    (st : LibState) (name : String) (h : Nat) (st1 : LibState)
    (hcall : jl_get_library rtld loader (some name) st = (some h, st1)) :
    ∀ (calls : List ((String → Option Nat) × Option String))
      (loader' : String → Option Nat),
      slotGet (runLibCalls rtld calls st1) name = some h ∧
      (jl_get_library rtld loader' (some name) (runLibCalls rtld calls st1)).1 = some h := by
  intro calls loader'
  have hpub := jl_get_library_publishes rtld loader st name h st1 hcall
  have hp := slotGet_runLibCalls rtld name h calls st1 hpub
  exact ⟨hp, jl_get_library_hit rtld loader' _ name h hp⟩

/-- Witness for C3 at a concrete resolution followed by an interfering call
whose loader no longer finds the library. -/
theorem jl_get_library_idempotent_witness :
    slotGet (runLibCalls 0 [(fun _ => none, some "libm")] ⟨[("libm", some 5)]⟩) "libm"
      = some 5 ∧
    (jl_get_library 0 (fun _ => none) (some "libm")
      (runLibCalls 0 [(fun _ => none, some "libm")] ⟨[("libm", some 5)]⟩)).1 = some 5 :=
  jl_get_library_idempotent 0 (fun _ => some 5) ⟨[]⟩ "libm" 5 ⟨[("libm", some 5)]⟩ rfl
    [(fun _ => none, some "libm")] (fun _ => none)

/-- Claim C7: when the native load fails, `jl_get_library` returns the null
handle (no exception: the model is a total function) and the map slot for
that name still reads empty; `jl_load_and_lookup` stores the null result in
the caller's slot, so the slot still reads empty and the next call takes
the load path again instead of latching the failure. -/
theorem load_failure_not_latched (rtld : Nat) (loader : String → Option Nat)
    (dlsym : Option Nat → String → Option Nat) (name f_name : String)
    (st : LibState) (hfail : loader name = none) (hempty : slotGet st name = none) :
    (jl_get_library rtld loader (some name) st).1 = none ∧
    slotGet (jl_get_library rtld loader (some name) st).2 name = none ∧
    ((jl_load_and_lookup rtld loader dlsym (some name) f_name none st).hnd = none ∧
     (jl_load_and_lookup rtld loader dlsym (some name) f_name none st).attempted = true ∧
     (jl_load_and_lookup rtld loader dlsym (some name) f_name
        (jl_load_and_lookup rtld loader dlsym (some name) f_name none st).hnd
        (jl_load_and_lookup rtld loader dlsym (some name) f_name none st).lib).attempted
       = true) := by
  have hslot : slotGet (⟨ensureSlot name st.libMap⟩ : LibState) name = none := by
    show (alookup name (ensureSlot name st.libMap)).join = none
    rw [slotGet_ensureSlot]
    exact hempty
  have hlib : jl_get_library rtld loader (some name) st
      = (none, ⟨ensureSlot name st.libMap⟩) := by
    simp only [jl_get_library]
    split
    · rename_i hnd heq
      rw [hslot] at heq
      exact absurd heq (by simp)
    · split
      · rename_i hnd heq
        rw [hfail] at heq
        exact absurd heq (by simp)
      · rfl
  refine ⟨by rw [hlib], by rw [hlib]; exact hslot, ?_, ?_, ?_⟩
  · simp [jl_load_and_lookup, hlib]
  · simp [jl_load_and_lookup]
  · simp [jl_load_and_lookup, hlib]

/-- Witness for C7 at a concrete always-failing loader and empty map. -/
theorem load_failure_not_latched_witness :
    (jl_get_library 0 (fun _ => none) (some "m") ⟨[]⟩).1 = none ∧
    slotGet (jl_get_library 0 (fun _ => none) (some "m") ⟨[]⟩).2 "m" = none ∧
    ((jl_load_and_lookup 0 (fun _ => none) (fun _ _ => none) (some "m") "sin" none
        ⟨[]⟩).hnd = none ∧
     (jl_load_and_lookup 0 (fun _ => none) (fun _ _ => none) (some "m") "sin" none
        ⟨[]⟩).attempted = true ∧
     (jl_load_and_lookup 0 (fun _ => none) (fun _ _ => none) (some "m") "sin"
        (jl_load_and_lookup 0 (fun _ => none) (fun _ _ => none) (some "m") "sin" none
          ⟨[]⟩).hnd
        (jl_load_and_lookup 0 (fun _ => none) (fun _ _ => none) (some "m") "sin" none
          ⟨[]⟩).lib).attempted = true) :=
  load_failure_not_latched 0 (fun _ => none) (fun _ _ => none) "m" "sin" ⟨[]⟩ rfl rfl

/-! ## CPU feature string (`jl_get_cpu_features_llvm`)

The host feature map (`StringMap<bool> HostFeatures`) is modelled as a list
of (name, enabled) pairs in the map's enumeration order.  `attr.empty()` is
the emptiness test on the accumulated string. -/

/-- `jl_get_cpu_features_llvm` (source lines 62-92): one pass appending
`+name` for every enabled feature, then a second pass appending `-name` for
every disabled feature, with `,` between consecutive entries. -/
def jl_get_cpu_features_llvm (hostFeatures : List (String × Bool)) : String :=
  let attr := hostFeatures.foldl (fun attr ele =>
    if ele.2 then
      (if attr = "" then attr ++ "+" else attr ++ ",+") ++ ele.1
    else attr) ""
  hostFeatures.foldl (fun attr ele =>
    if !ele.2 then
      (if attr = "" then attr ++ "-" else attr ++ ",-") ++ ele.1
    else attr) attr

/-- Spec-side: `+name` tokens of the enabled features, in map order. -/
def enabledTokens (fs : List (String × Bool)) : List String :=
  (fs.filter (fun e => e.2)).map (fun e => "+" ++ e.1)

/-- Spec-side: `-name` tokens of the disabled features, in map order. -/
def disabledTokens (fs : List (String × Bool)) : List String :=
  (fs.filter (fun e => !e.2)).map (fun e => "-" ++ e.1)

/-- Spec-side: join tokens with a single comma between consecutive entries
and no leading separator. -/
def joinComma : List String → String
  | [] => ""
  | t :: ts => ts.foldl (fun a s => a ++ "," ++ s) t

/-- Comma-joining step with the accumulated-string emptiness test. -/
def foldTok (a : String) (ts : List String) : String :=
  ts.foldl (fun a t => if a = "" then t else a ++ "," ++ t) a

theorem append_triple_ne (a m s : String) (hm : m ≠ "") : a ++ m ++ s ≠ "" := by
  intro h
  have hd := congrArg String.data h
  simp only [String.data_append] at hd
  rcases List.append_eq_nil.mp (List.append_eq_nil.mp hd).1 with ⟨-, hm2⟩
  exact hm (String.ext hm2)

theorem plus_append_ne (p n : String) (hp : p ≠ "") : p ++ n ≠ "" := by
  intro h
  have hd := congrArg String.data h
  simp only [String.data_append] at hd
  exact hp (String.ext (List.append_eq_nil.mp hd).1)

theorem foldTok_of_ne (ts : List String) :
    ∀ a : String, a ≠ "" → foldTok a ts = ts.foldl (fun a s => a ++ "," ++ s) a := by
  induction ts with
  | nil => intro a ha; rfl
  | cons t ts ih =>
    intro a ha
    show foldTok (if a = "" then t else a ++ "," ++ t) ts
      = (t :: ts).foldl (fun a s => a ++ "," ++ s) a
    rw [if_neg ha, List.foldl_cons]
    exact ih (a ++ "," ++ t) (append_triple_ne a "," t (by decide))

theorem foldTok_empty_start (ts : List String) (hts : ∀ t ∈ ts, t ≠ "") :
    foldTok "" ts = joinComma ts := by
  cases ts with
  | nil => rfl
  | cons t ts =>
    show foldTok (if ("" : String) = "" then t else "" ++ "," ++ t) ts = joinComma (t :: ts)
    rw [if_pos rfl]
    exact foldTok_of_ne ts t (hts t (List.mem_cons_self t ts))

theorem foldTok_append (a : String) (ts1 ts2 : List String) :
    foldTok a (ts1 ++ ts2) = foldTok (foldTok a ts1) ts2 :=
  List.foldl_append ..

theorem foldPlus_eq (fs : List (String × Bool)) :
    ∀ a : String,
      fs.foldl (fun attr ele =>
        if ele.2 then (if attr = "" then attr ++ "+" else attr ++ ",+") ++ ele.1
        else attr) a
      = foldTok a (enabledTokens fs) := by
  induction fs with
  | nil => intro a; rfl
  | cons e t ih =>
    intro a
    obtain ⟨n, b⟩ := e
    cases b
    · simpa [enabledTokens] using ih a
    · rw [List.foldl_cons]
      simp only [ih]
      have htok : enabledTokens ((n, true) :: t) = ("+" ++ n) :: enabledTokens t := by
        simp [enabledTokens]
      rw [htok]
      show foldTok _ (enabledTokens t)
        = foldTok (if a = "" then ("+" ++ n) else a ++ "," ++ ("+" ++ n)) (enabledTokens t)
      congr 1
      by_cases ha : a = ""
      · subst ha
        simp [String.empty_append]
      · rw [if_neg ha, if_neg ha, String.append_assoc a ",+" n,
          String.append_assoc a "," ("+" ++ n)]
        congr 1

theorem foldMinus_eq (fs : List (String × Bool)) :
    ∀ a : String,
      fs.foldl (fun attr ele =>
        if !ele.2 then (if attr = "" then attr ++ "-" else attr ++ ",-") ++ ele.1
        else attr) a
      = foldTok a (disabledTokens fs) := by
  induction fs with
  | nil => intro a; rfl
  | cons e t ih =>
    intro a
    obtain ⟨n, b⟩ := e
    cases b
    · rw [List.foldl_cons]
      simp only [ih]
      have htok : disabledTokens ((n, false) :: t) = ("-" ++ n) :: disabledTokens t := by
        simp [disabledTokens]
      rw [htok]
      show foldTok _ (disabledTokens t)
        = foldTok (if a = "" then ("-" ++ n) else a ++ "," ++ ("-" ++ n)) (disabledTokens t)
      congr 1
      by_cases ha : a = ""
      · subst ha
        simp [String.empty_append]
      · rw [if_neg ha, if_neg ha, String.append_assoc a ",-" n,
          String.append_assoc a "," ("-" ++ n)]
        congr 1
    · simpa [disabledTokens] using ih a

theorem tokens_ne (fs : List (String × Bool)) :
    ∀ t ∈ enabledTokens fs ++ disabledTokens fs, t ≠ "" := by
  intro t ht
  rcases List.mem_append.mp ht with h | h
  · obtain ⟨e, -, rfl⟩ := List.mem_map.mp h
    exact plus_append_ne "+" e.1 (by decide)
  · obtain ⟨e, -, rfl⟩ := List.mem_map.mp h
    exact plus_append_ne "-" e.1 (by decide)

/-- The feature string is the comma-join of the `+name` tokens followed by
the `-name` tokens. -/
theorem cpuFeatures_eq_joinComma (fs : List (String × Bool)) :
    jl_get_cpu_features_llvm fs = joinComma (enabledTokens fs ++ disabledTokens fs) := by
  show fs.foldl _ (fs.foldl _ "") = _
  rw [foldPlus_eq, foldMinus_eq, ← foldTok_append]
  exact foldTok_empty_start _ (tokens_ne fs)

theorem count_comma_foldl (ts : List String) :
    ∀ a : String, (∀ t ∈ ts, ',' ∉ t.data) →
      ((ts.foldl (fun a s => a ++ "," ++ s) a).data.count ',')
        = a.data.count ',' + ts.length := by
  induction ts with
  | nil => intro a h; simp
  | cons t ts ih =>
    intro a h
    rw [List.foldl_cons, ih _ (fun x hx => h x (List.mem_cons_of_mem _ hx))]
    have ht : ',' ∉ t.data := h t (List.mem_cons_self t ts)
    have hstep : ((a ++ "," ++ t).data.count ',') = a.data.count ',' + 1 := by
      have hc : ((",").data.count ',') = 1 := by decide
      simp [String.data_append, List.count_append, List.count_eq_zero.mpr ht, hc]
    rw [hstep]
    simp
    omega

theorem tokens_comma_free (fs : List (String × Bool))
    (hnames : ∀ e ∈ fs, ',' ∉ e.1.data) :
    ∀ t ∈ enabledTokens fs ++ disabledTokens fs, ',' ∉ t.data := by
  intro t ht
  rcases List.mem_append.mp ht with h | h
  · obtain ⟨e, he, rfl⟩ := List.mem_map.mp h
    have hn := hnames e (List.mem_of_mem_filter he)
    intro hc
    rw [String.data_append] at hc
    rcases List.mem_append.mp hc with h1 | h1
    · exact absurd h1 (by decide)
    · exact hn h1
  · obtain ⟨e, he, rfl⟩ := List.mem_map.mp h
    have hn := hnames e (List.mem_of_mem_filter he)
    intro hc
    rw [String.data_append] at hc
    rcases List.mem_append.mp hc with h1 | h1
    · exact absurd h1 (by decide)
    · exact hn h1

theorem tokens_length (fs : List (String × Bool)) :
    (enabledTokens fs ++ disabledTokens fs).length = fs.length := by
  simp only [enabledTokens, disabledTokens, List.length_append, List.length_map]
  exact (List.length_eq_length_filter_add (l := fs) (fun e : String × Bool => e.2)).symm

/-- Claim C9: for every host feature map, the CPU feature string lists all
enabled features first (each as `+name`), then all disabled features (each
as `-name`), consecutive entries joined by a single comma with no leading
separator (the empty map yields the empty string). -/
theorem jl_get_cpu_features_llvm_grouping (fs : List (String × Bool)) :
    jl_get_cpu_features_llvm fs = joinComma (enabledTokens fs ++ disabledTokens fs) :=
  cpuFeatures_eq_joinComma fs

/-- Counterexample for claim C10 as stated: with two enabled features the
feature string does contain a comma character. -/
theorem jl_get_cpu_features_llvm_comma_free_counterexample :
    2 ≤ ([("a", true), ("b", true)] : List (String × Bool)).length ∧
    ',' ∈ (jl_get_cpu_features_llvm [("a", true), ("b", true)]).data := by
  constructor
  · decide
  · decide

/-- Claim C10 (amended): for every host feature map with at least two
features whose names contain no comma, the CPU feature string is the
comma-separated (not comma-free) sequence of `+feature` tokens followed by
`-feature` tokens; it contains exactly one fewer comma than there are
features. -/
theorem jl_get_cpu_features_llvm_comma_separated (fs : List (String × Bool))
    (hlen : 2 ≤ fs.length) (hnames : ∀ e ∈ fs, ',' ∉ e.1.data) :
    jl_get_cpu_features_llvm fs = joinComma (enabledTokens fs ++ disabledTokens fs) ∧
    ((jl_get_cpu_features_llvm fs).data.count ',') = fs.length - 1 := by
  refine ⟨cpuFeatures_eq_joinComma fs, ?_⟩
  rw [cpuFeatures_eq_joinComma fs]
  have hfree := tokens_comma_free fs hnames
  have hTlen := tokens_length fs
  cases hT : enabledTokens fs ++ disabledTokens fs with
  | nil => rw [hT] at hTlen; simp at hTlen; omega
  | cons t rest =>
    rw [hT] at hfree hTlen
    show ((rest.foldl (fun a s => a ++ "," ++ s) t).data.count ',') = fs.length - 1
    rw [count_comma_foldl rest t (fun x hx => hfree x (List.mem_cons_of_mem _ hx))]
    have h0 : (t.data.count ',') = 0 :=
      List.count_eq_zero.mpr (hfree t (List.mem_cons_self t rest))
    rw [h0]
    simp at hTlen
    omega

/-- Witness for C10 (amended) at a concrete two-feature map. -/
theorem jl_get_cpu_features_llvm_comma_separated_witness :
    jl_get_cpu_features_llvm [("a", true), ("b", false)]
      = joinComma (enabledTokens [("a", true), ("b", false)]
          ++ disabledTokens [("a", true), ("b", false)]) ∧
    ((jl_get_cpu_features_llvm [("a", true), ("b", false)]).data.count ',') = 1 :=
  jl_get_cpu_features_llvm_comma_separated [("a", true), ("b", false)]
    (by decide) (by decide)

/-! ## Cfunction trampolines (`jl_get_cfunction_trampoline`, `trampoline_deleter`)

Julia values (`jl_value_t*`) are identified by their pointer identity,
modelled as `Nat` (`JV`).  The type-introspection primitives
(`jl_is_concrete_type`, `jl_is_immutable`, `jl_is_unionall`,
`jl_is_datatype`, `jl_typeof`, the datatype `instance` field,
`jl_unwrap_unionall`, the `name->wrapper` field) are external collaborators
bundled in a `ValueModel`.  The specialization evaluator
`jl_instantiate_type_in_env` is passed as a function from the formal
parameter to `Except Unit JV` (`Except.error` = it raised, caught by
`JL_CATCH`).  The code-emission collaborator `init_trampoline` maps the
trampoline storage pointer to the returned entry point.

A caller-supplied cache root (`htable_t *cache`) holds, per key, either a
generated entry point (when `fill` is the empty svec and the closure `f` is
the key) or an inner per-`vals` hash table.  The C source stores both as
untyped `void*`; using one cache root in both modes at once would
reinterpret one as the other (undefined behavior in the source), so the
model treats a kind-mismatched entry as absent.  `malloc` results for the
64-byte trampoline storage come from the monotone counter `nextPtr`. -/

/-- Pointer identity of a Julia value. -/
abbrev JV := Nat

/-- External type-introspection collaborators (fields of `jl_value_t`). -/
structure ValueModel where
  isConcreteType : JV → Bool
  isImmutable : JV → Bool
  isUnionall : JV → Bool
  isDatatype : JV → Bool
  typeof : JV → JV
  instanceField : JV → Option JV
  unwrapUnionall : JV → JV
  nameWrapper : JV → JV
  anyType : JV

/-- One cell of the `nval` parameter array: the trampoline storage pointer
(cell 0), the closure value (cell 1), or a specialized parameter value /
the `NULL` "unspecialized" sentinel (cells 2..). -/
inductive Cell
  | ptr (p : Nat)
  | val (v : JV)
  | null
deriving DecidableEq

/-- A binding in the caller's cache root: a generated entry point (keyed by
the closure when `fill` is empty) or an inner per-`vals` table mapping
closure identity to entry point. -/
inductive RootEntry
  | tramp (t : Nat)
  | table (m : List (Nat × Nat))
deriving DecidableEq

/-- Effects of one `jl_get_cfunction_trampoline` call: a call into the
specialization evaluator, `malloc`/`free` of the parameter array, `malloc`
of an inner cache table, `malloc` of the trampoline storage, insertion into
the weak `trampolines` registry, and `jl_gc_add_finalizer` registration. -/
inductive Ev
  | instCall
  | allocArray
  | freeArray
  | allocInner
  | allocTramp
  | putRegistry
  | regFinalizer
deriving DecidableEq

/-- The mutable state touched by `jl_get_cfunction_trampoline`: the
caller's cache root, the global weak `trampolines` registry
(finalizer → parameter array), the set of objects handed to
`jl_gc_add_finalizer`, the live parameter arrays, and the allocation
counter. -/
structure TState where
  root : List (Nat × RootEntry)
  registry : List (JV × List Cell)
  gcFinalizers : List JV
  arrays : List (List Cell)
  nextPtr : Nat
deriving DecidableEq

/-- Source lines 144-148: the instantiated value is kept only when it is
`jl_any_type` or both a concrete and an immutable type; otherwise the
stored bound value is the `NULL` sentinel. -/
def specCell (M : ValueModel) (sparam_val : JV) : Cell :=
  if sparam_val = M.anyType then Cell.val sparam_val
  else if M.isConcreteType sparam_val && M.isImmutable sparam_val then Cell.val sparam_val
  else Cell.null

/-- The `JL_TRY` loop over the formal parameters (source lines 143-149):
either all evaluator calls succeed, giving the cells 2.. of `nval` and one
`instCall` event per parameter, or the first failure aborts the loop with
the events of the calls made so far. -/
def specLoop (M : ValueModel) (inst : JV → Except Unit JV) :
    List JV → Except (List Ev) (List Cell × List Ev)
  | [] => Except.ok ([], [])
  | x :: xs =>
    match inst x with
    | Except.error _ => Except.error [Ev.instCall]
    | Except.ok w =>
      match specLoop M inst xs with
      | Except.ok (cs, evs) => Except.ok (specCell M w :: cs, Ev.instCall :: evs)
      | Except.error evs => Except.error (Ev.instCall :: evs)

/-- `ptrhash_bp(cache, vals)` for a non-empty `fill` (source lines
126-133): materialize the inner per-`vals` cache, allocating an empty one
when absent. -/
def ensureInner (st : TState) (fill : List JV) (valsId : Nat) : TState × List Ev :=
  if fill = [] then (st, [])
  else
    match alookup valsId st.root with
    | some (RootEntry.table _) => (st, [])
    | _ => ({ st with root := aput valsId (RootEntry.table []) st.root }, [Ev.allocInner])

/-- `ptrhash_get(cache, f)` through the selected cache level. -/
def lookupTramp (st : TState) (fill : List JV) (valsId f : Nat) : Option Nat :=
  if fill = [] then
    match alookup f st.root with
    | some (RootEntry.tramp t) => some t
    | _ => none
  else
    match alookup valsId st.root with
    | some (RootEntry.table m) => alookup f m
    | _ => none

/-- `ptrhash_put(cache, f, tramp)` through the selected cache level. -/
def commitTramp (st : TState) (fill : List JV) (valsId f entry : Nat) : TState :=
  if fill = [] then { st with root := aput f (RootEntry.tramp entry) st.root }
  else
    match alookup valsId st.root with
    | some (RootEntry.table m) =>
      { st with root := aput valsId (RootEntry.table (aput f entry m)) st.root }
    | _ =>
      { st with root := aput valsId (RootEntry.table (aput f entry [])) st.root }

/-- The permanence classification of `finalizer` (source lines 159-166):
`permanent` starts as "concrete type, or the canonical instance of its own
type", and is promoted to true when `finalizer` is a unionall whose
unwrapped body is a datatype whose `name->wrapper` is `finalizer` itself. -/
def permanentFlag (M : ValueModel) (finalizer : JV) : Bool :=
  let permanent0 :=
    M.isConcreteType finalizer || (M.instanceField (M.typeof finalizer) == some finalizer)
  if M.isUnionall finalizer then
    if M.isDatatype (M.unwrapUnionall finalizer) &&
        (M.nameWrapper (M.unwrapUnionall finalizer) == finalizer) then
      true
    else permanent0
  else permanent0

/-- `jl_get_cfunction_trampoline` (source lines 113-177).  Returns the
entry point (or the re-raised specialization error), the final state and
the event trace.  The record `nval` is assembled as in the source:
cell 1 is `f`, cells 2.. come from the specialization loop, and cell 0 is
the trampoline storage pointer (written after the loop); on a caught
specialization failure the partially filled array is freed and the error
re-raised.  Permanence of `finalizer` (lines 159-166) decides whether the
record is put in the weak `trampolines` registry and a GC finalizer is
registered (lines 167-176). -/
def jl_get_cfunction_trampoline (M : ValueModel) (inst : JV → Except Unit JV)
    (init_trampoline : Nat → Nat) (f : JV) (fill : List JV) (valsId : Nat)
    (finalizer : JV) (st : TState) : Except Unit Nat × TState × List Ev :=
  let stepA := ensureInner st fill valsId
  let st1 := stepA.1
  match lookupTramp st1 fill valsId f with
  | some tramp => (Except.ok tramp, st1, stepA.2)
  | none =>
    match specLoop M inst fill with
    | Except.error evs =>
      (Except.error (), st1, stepA.2 ++ Ev.allocArray :: (evs ++ [Ev.freeArray]))
    | Except.ok (cells, evs) =>
      let storage := st1.nextPtr
      let nval := Cell.ptr storage :: Cell.val f :: cells
      let tramp := init_trampoline storage
      let st2 := commitTramp
        { st1 with nextPtr := st1.nextPtr + 1, arrays := nval :: st1.arrays }
        fill valsId f tramp
      let permanent := permanentFlag M finalizer
      let st3 :=
        if permanent then st2
        else { st2 with registry := aput finalizer nval st2.registry,
                        gcFinalizers := finalizer :: st2.gcFinalizers }
      let evs2 := if permanent then [] else [Ev.putRegistry, Ev.regFinalizer]
      (Except.ok tramp, st3,
        stepA.2 ++ Ev.allocArray :: (evs ++ Ev.allocTramp :: evs2))

/-- What `trampoline_deleter` frees, in order: first `nvals[0]` (the native
trampoline storage cell), then the parameter array `nvals` itself. -/
inductive Freed
  | cell0 (c : Option Cell)
  | array (a : List Cell)
deriving DecidableEq

/-- `trampoline_deleter` (source lines 104-111): look the finalized object
up in the weak `trampolines` registry and remove its entry; an absent
entry fails the `assert` (modelled as `none`, the fatal outcome); then
free `nvals[0]` and `nvals`. -/
def trampoline_deleter (trampolines : List (JV × List Cell)) (o : JV) :
    Option (List (JV × List Cell) × List Freed) :=
  match alookup o trampolines with
  | none => none
  | some nvals =>
    some (aremove o trampolines, [Freed.cell0 nvals.head?, Freed.array nvals])

theorem ensureInner_registry (st : TState) (fill : List JV) (valsId : Nat) :
    (ensureInner st fill valsId).1.registry = st.registry := by
  unfold ensureInner
  split
  · rfl
  · split <;> rfl

theorem ensureInner_gcFinalizers (st : TState) (fill : List JV) (valsId : Nat) :
    (ensureInner st fill valsId).1.gcFinalizers = st.gcFinalizers := by
  unfold ensureInner
  split
  · rfl
  · split <;> rfl

theorem ensureInner_arrays (st : TState) (fill : List JV) (valsId : Nat) :
    (ensureInner st fill valsId).1.arrays = st.arrays := by
  unfold ensureInner
  split
  · rfl
  · split <;> rfl

theorem ensureInner_nextPtr (st : TState) (fill : List JV) (valsId : Nat) :
    (ensureInner st fill valsId).1.nextPtr = st.nextPtr := by
  unfold ensureInner
  split
  · rfl
  · split <;> rfl

theorem commitTramp_registry (st : TState) (fill : List JV) (valsId f e : Nat) :
    (commitTramp st fill valsId f e).registry = st.registry := by
  unfold commitTramp
  split
  · rfl
  · split <;> rfl

theorem commitTramp_gcFinalizers (st : TState) (fill : List JV) (valsId f e : Nat) :
    (commitTramp st fill valsId f e).gcFinalizers = st.gcFinalizers := by
  unfold commitTramp
  split
  · rfl
  · split <;> rfl

theorem commitTramp_arrays (st : TState) (fill : List JV) (valsId f e : Nat) :
    (commitTramp st fill valsId f e).arrays = st.arrays := by
  unfold commitTramp
  split
  · rfl
  · split <;> rfl

theorem commitTramp_nextPtr (st : TState) (fill : List JV) (valsId f e : Nat) :
    (commitTramp st fill valsId f e).nextPtr = st.nextPtr := by
  unfold commitTramp
  split
  · rfl
  · split <;> rfl

/-- Materializing the inner cache does not change the outcome of the
trampoline lookup. -/
theorem lookupTramp_ensureInner (st : TState) (fill : List JV) (valsId f : Nat) :
    lookupTramp (ensureInner st fill valsId).1 fill valsId f
      = lookupTramp st fill valsId f := by
  by_cases hf : fill = []
  · simp [ensureInner, hf]
  · simp only [ensureInner, if_neg hf]
    cases hv : alookup valsId st.root with
    | none => simp [lookupTramp, if_neg hf, hv, alookup_aput_self, alookup]
    | some e =>
      cases e with
      | table m => simp [lookupTramp, if_neg hf, hv]
      | tramp t => simp [lookupTramp, if_neg hf, hv, alookup_aput_self, alookup]

/-- After `commitTramp`, looking the same closure up in the same cache
level finds the committed entry point. -/
theorem lookupTramp_commitTramp_self (st : TState) (fill : List JV) (valsId f e : Nat) :
    lookupTramp (commitTramp st fill valsId f e) fill valsId f = some e := by
  by_cases hf : fill = []
  · simp [commitTramp, lookupTramp, hf, alookup_aput_self]
  · simp only [commitTramp, if_neg hf]
    cases hv : alookup valsId st.root with
    | none => simp [lookupTramp, if_neg hf, hv, alookup_aput_self]
    | some e2 =>
      cases e2 with
      | table m => simp [lookupTramp, if_neg hf, hv, alookup_aput_self]
      | tramp t => simp [lookupTramp, if_neg hf, hv, alookup_aput_self]

/-- After `commitTramp` with a non-empty `fill`, the cache root holds an
inner table under the `vals` identity. -/
theorem commitTramp_root_table (st : TState) (fill : List JV) (valsId f e : Nat)
    (hf : fill ≠ []) :
    ∃ m, alookup valsId (commitTramp st fill valsId f e).root
      = some (RootEntry.table m) := by
  simp only [commitTramp, if_neg hf]
  cases hv : alookup valsId st.root with
  | none => exact ⟨aput f e [], by simp [hv, alookup_aput_self]⟩
  | some e2 =>
    cases e2 with
    | table m => exact ⟨aput f e m, by simp [hv, alookup_aput_self]⟩
    | tramp t => exact ⟨aput f e [], by simp [hv, alookup_aput_self]⟩

/-- On a cache hit, `jl_get_cfunction_trampoline` returns the stored entry
point, leaves the state untouched and performs no effects. -/
theorem jl_get_cfunction_trampoline_hit (M : ValueModel) (inst : JV → Except Unit JV)
    (init_trampoline : Nat → Nat) (f : JV) (fill : List JV) (valsId : Nat)
    (finalizer : JV) (st : TState) (t : Nat)
    (hhit : lookupTramp st fill valsId f = some t) :
    jl_get_cfunction_trampoline M inst init_trampoline f fill valsId finalizer st
      = (Except.ok t, st, []) := by
  have hens : ensureInner st fill valsId = (st, []) := by
    by_cases hf : fill = []
    · simp [ensureInner, hf]
    · simp only [lookupTramp, if_neg hf] at hhit
      cases hv : alookup valsId st.root with
      | none => rw [hv] at hhit; exact absurd hhit (by simp)
      | some e =>
        cases e with
        | table m => simp [ensureInner, if_neg hf, hv]
        | tramp t2 => rw [hv] at hhit; exact absurd hhit (by simp)
  simp [jl_get_cfunction_trampoline, hens, hhit]

/-- On a cache miss with a failing specialization loop, the call frees the
array, re-raises, and only the inner-cache materialization survives. -/
theorem jl_get_cfunction_trampoline_raise (M : ValueModel) (inst : JV → Except Unit JV)
    (init_trampoline : Nat → Nat) (f : JV) (fill : List JV) (valsId : Nat)
    (finalizer : JV) (st : TState) (evs : List Ev)
    (hmiss : lookupTramp st fill valsId f = none)
    (hspec : specLoop M inst fill = Except.error evs) :
    jl_get_cfunction_trampoline M inst init_trampoline f fill valsId finalizer st
      = (Except.error (), (ensureInner st fill valsId).1,
         (ensureInner st fill valsId).2 ++ Ev.allocArray :: (evs ++ [Ev.freeArray])) := by
  have hm1 : lookupTramp (ensureInner st fill valsId).1 fill valsId f = none := by
    rw [lookupTramp_ensureInner]; exact hmiss
  simp [jl_get_cfunction_trampoline, hm1, hspec]

/-- On a cache miss with a fully successful specialization loop, the call
builds the record, commits it, classifies `finalizer`, and registers the
record exactly when it is not permanent. -/
theorem jl_get_cfunction_trampoline_build (M : ValueModel) (inst : JV → Except Unit JV)
    (init_trampoline : Nat → Nat) (f : JV) (fill : List JV) (valsId : Nat)
    (finalizer : JV) (st : TState) (cells : List Cell) (evs : List Ev)
    (hmiss : lookupTramp st fill valsId f = none)
    (hspec : specLoop M inst fill = Except.ok (cells, evs)) :
    jl_get_cfunction_trampoline M inst init_trampoline f fill valsId finalizer st
      = (Except.ok (init_trampoline (ensureInner st fill valsId).1.nextPtr),
         (if permanentFlag M finalizer then
            commitTramp
              { (ensureInner st fill valsId).1 with
                nextPtr := (ensureInner st fill valsId).1.nextPtr + 1,
                arrays := (Cell.ptr (ensureInner st fill valsId).1.nextPtr
                  :: Cell.val f :: cells) :: (ensureInner st fill valsId).1.arrays }
              fill valsId f (init_trampoline (ensureInner st fill valsId).1.nextPtr)
          else
            { commitTramp
                { (ensureInner st fill valsId).1 with
                  nextPtr := (ensureInner st fill valsId).1.nextPtr + 1,
                  arrays := (Cell.ptr (ensureInner st fill valsId).1.nextPtr
                    :: Cell.val f :: cells) :: (ensureInner st fill valsId).1.arrays }
                fill valsId f (init_trampoline (ensureInner st fill valsId).1.nextPtr)
              with
              registry := aput finalizer
                (Cell.ptr (ensureInner st fill valsId).1.nextPtr :: Cell.val f :: cells)
                (commitTramp
                  { (ensureInner st fill valsId).1 with
                    nextPtr := (ensureInner st fill valsId).1.nextPtr + 1,
                    arrays := (Cell.ptr (ensureInner st fill valsId).1.nextPtr
                      :: Cell.val f :: cells) :: (ensureInner st fill valsId).1.arrays }
                  fill valsId f
                  (init_trampoline (ensureInner st fill valsId).1.nextPtr)).registry,
              gcFinalizers := finalizer ::
                (commitTramp
                  { (ensureInner st fill valsId).1 with
                    nextPtr := (ensureInner st fill valsId).1.nextPtr + 1,
                    arrays := (Cell.ptr (ensureInner st fill valsId).1.nextPtr
                      :: Cell.val f :: cells) :: (ensureInner st fill valsId).1.arrays }
                  fill valsId f
                  (init_trampoline (ensureInner st fill valsId).1.nextPtr)).gcFinalizers }),
         (ensureInner st fill valsId).2 ++ Ev.allocArray ::
           (evs ++ Ev.allocTramp ::
             (if permanentFlag M finalizer then []
              else [Ev.putRegistry, Ev.regFinalizer]))) := by
  have hm1 : lookupTramp (ensureInner st fill valsId).1 fill valsId f = none := by
    rw [lookupTramp_ensureInner]; exact hmiss
  simp only [jl_get_cfunction_trampoline, hm1, hspec]

theorem ensureInner_trace (st : TState) (fill : List JV) (valsId : Nat) :
    (ensureInner st fill valsId).2 = [] ∨ (ensureInner st fill valsId).2 = [Ev.allocInner] := by
  unfold ensureInner
  split
  · exact Or.inl rfl
  · split
    · exact Or.inl rfl
    · exact Or.inr rfl

theorem specLoop_ok_events (M : ValueModel) (inst : JV → Except Unit JV) :
    ∀ (fill : List JV) (cells : List Cell) (evs : List Ev),
      specLoop M inst fill = Except.ok (cells, evs) → ∀ e ∈ evs, e = Ev.instCall := by
  intro fill
  induction fill with
  | nil =>
    intro cells evs h e he
    simp [specLoop] at h
    rw [h.2] at he
    simp at he
  | cons x xs ih =>
    intro cells evs h e he
    simp only [specLoop] at h
    cases hx : inst x with
    | error u => rw [hx] at h; exact absurd h (by simp)
    | ok w =>
      rw [hx] at h
      cases hrec : specLoop M inst xs with
      | error evs2 => rw [hrec] at h; exact absurd h (by simp)
      | ok p =>
        obtain ⟨cs, evs2⟩ := p
        rw [hrec] at h
        simp only [Except.ok.injEq, Prod.mk.injEq] at h
        rw [← h.2] at he
        rcases List.mem_cons.mp he with h1 | h1
        · exact h1
        · exact ih cs evs2 hrec e h1

theorem specLoop_error_events (M : ValueModel) (inst : JV → Except Unit JV) :
    ∀ (fill : List JV) (evs : List Ev),
      specLoop M inst fill = Except.error evs → ∀ e ∈ evs, e = Ev.instCall := by
  intro fill
  induction fill with
  | nil =>
    intro evs h
    simp [specLoop] at h
  | cons x xs ih =>
    intro evs h e he
    simp only [specLoop] at h
    cases hx : inst x with
    | error u =>
      rw [hx] at h
      simp only [Except.error.injEq] at h
      rw [← h] at he
      simpa using he
    | ok w =>
      rw [hx] at h
      cases hrec : specLoop M inst xs with
      | error evs2 =>
        rw [hrec] at h
        simp only [Except.error.injEq] at h
        rw [← h] at he
        rcases List.mem_cons.mp he with h1 | h1
        · exact h1
        · exact ih evs2 hrec e h1
      | ok p =>
        obtain ⟨cs, evs2⟩ := p
        rw [hrec] at h
        exact absurd h (by simp)

theorem specLoop_ok_cells (M : ValueModel) (inst : JV → Except Unit JV) :
    ∀ (fill : List JV) (cells : List Cell) (evs : List Ev),
      specLoop M inst fill = Except.ok (cells, evs) →
      cells.length = fill.length ∧
      ∀ i (hi : i < fill.length), ∃ w,
        inst (fill.get ⟨i, hi⟩) = Except.ok w ∧ cells[i]? = some (specCell M w) := by
  intro fill
  induction fill with
  | nil =>
    intro cells evs h
    simp [specLoop] at h
    refine ⟨by rw [h.1]; rfl, ?_⟩
    intro i hi
    exact absurd hi (by simp)
  | cons x xs ih =>
    intro cells evs h
    simp only [specLoop] at h
    cases hx : inst x with
    | error u => rw [hx] at h; exact absurd h (by simp)
    | ok w =>
      rw [hx] at h
      cases hrec : specLoop M inst xs with
      | error evs2 => rw [hrec] at h; exact absurd h (by simp)
      | ok p =>
        obtain ⟨cs, evs2⟩ := p
        rw [hrec] at h
        simp only [Except.ok.injEq, Prod.mk.injEq] at h
        obtain ⟨hl, hg⟩ := ih cs evs2 hrec
        rw [← h.1]
        refine ⟨by simp [hl], ?_⟩
        intro i hi
        cases i with
        | zero => exact ⟨w, hx, by simp⟩
        | succ j =>
          obtain ⟨w2, hw2, hc2⟩ := hg j (by simpa using hi)
          exact ⟨w2, hw2, by simpa using hc2⟩

/-- The code's kept-or-sentinel decision, phrased as in the specification:
the sentinel is stored exactly when the instantiated value is not the
universal top type and is not both a concrete and an immutable type. -/
theorem specCell_eq_claim (M : ValueModel) (w : JV) :
    specCell M w
      = (if w ≠ M.anyType ∧ ¬(M.isConcreteType w = true ∧ M.isImmutable w = true)
         then Cell.null else Cell.val w) := by
  unfold specCell
  by_cases h1 : w = M.anyType
  · simp [h1]
  · by_cases h2 : M.isConcreteType w <;> by_cases h3 : M.isImmutable w <;>
      simp [h1, h2, h3]

/-- The permanence condition of the specification text, as a proposition:
concrete type, or canonical instance of its own type, or unionall whose
unwrapped body is a datatype whose name's wrapper is the value itself. -/
def permSpec (M : ValueModel) (finalizer : JV) : Prop :=
  M.isConcreteType finalizer = true ∨
  M.instanceField (M.typeof finalizer) = some finalizer ∨
  (M.isUnionall finalizer = true ∧
    M.isDatatype (M.unwrapUnionall finalizer) = true ∧
    M.nameWrapper (M.unwrapUnionall finalizer) = finalizer)

instance (M : ValueModel) (finalizer : JV) : Decidable (permSpec M finalizer) := by
  unfold permSpec
  infer_instance

/-- The code's permanence flag agrees with the specification's rule. -/
theorem permanentFlag_iff (M : ValueModel) (finalizer : JV) :
    permanentFlag M finalizer = true ↔ permSpec M finalizer := by
  unfold permanentFlag permSpec
  by_cases hu : M.isUnionall finalizer
  · by_cases hd : M.isDatatype (M.unwrapUnionall finalizer)
    · by_cases hw : M.nameWrapper (M.unwrapUnionall finalizer) = finalizer
      · simp [hu, hd, hw]
      · simp [hu, hd, hw, beq_iff_eq]
    · simp [hu, hd, beq_iff_eq]
  · simp [hu, beq_iff_eq]

/-- The cached entry point for closure `g` under the inner cache stored at
binding-values identity `v`. -/
def pairEntry (st : TState) (v g : Nat) : Option Nat :=
  match alookup v st.root with
  | some (RootEntry.table m) => alookup g m
  | _ => none

/-- The cached entry point for closure `g` directly under the cache root
(the empty-`fill` layout). -/
def directEntry (st : TState) (g : Nat) : Option Nat :=
  match alookup g st.root with
  | some (RootEntry.tramp t) => some t
  | _ => none

/-- Materializing an (empty) inner cache changes no cached entry points. -/
theorem pairEntry_ensureInner (st : TState) (fill : List JV) (valsId : Nat) (v g : Nat) :
    pairEntry (ensureInner st fill valsId).1 v g = pairEntry st v g := by
  unfold ensureInner
  split
  · rfl
  · split
    · rfl
    · rename_i hnt
      by_cases hv : v = valsId
      · subst hv
        have hbefore : pairEntry st v g = none := by
          unfold pairEntry
          cases ha : alookup v st.root with
          | none => rfl
          | some e =>
            cases e with
            | table m => exact absurd ha (by simpa using hnt m)
            | tramp t => rfl
        rw [hbefore]
        simp [pairEntry, alookup_aput_self, alookup]
      · simp [pairEntry, alookup_aput_ne _ _ hv]

/-- Materializing an (empty) inner cache changes no direct entry points,
provided the root is not misused (no entry-point binding sits at the
binding-values key — in the C source that case is type-confused undefined
behavior). -/
theorem directEntry_ensureInner (st : TState) (fill : List JV) (valsId : Nat)
    (hwf : ∀ x, alookup valsId st.root ≠ some (RootEntry.tramp x)) (g : Nat) :
    directEntry (ensureInner st fill valsId).1 g = directEntry st g := by
  unfold ensureInner
  split
  · rfl
  · split
    · rfl
    · rename_i hnt
      by_cases hv : g = valsId
      · subst hv
        have hbefore : directEntry st g = none := by
          unfold directEntry
          cases ha : alookup g st.root with
          | none => rfl
          | some e =>
            cases e with
            | table m => rfl
            | tramp t => exact absurd ha (hwf t)
        rw [hbefore]
        simp [directEntry, alookup_aput_self]
      · simp [directEntry, alookup_aput_ne _ _ hv]

/-- `lookupTramp` reads only the cache root. -/
theorem lookupTramp_root_only (st st2 : TState) (h : st.root = st2.root)
    (fill : List JV) (valsId f : Nat) :
    lookupTramp st fill valsId f = lookupTramp st2 fill valsId f := by
  unfold lookupTramp
  rw [h]

/-- A concrete value model for witnesses: no value is a concrete type,
immutable, unionall or datatype; no type has a canonical instance. -/
def M0 : ValueModel :=
  { isConcreteType := fun _ => false
    isImmutable := fun _ => false
    isUnionall := fun _ => false
    isDatatype := fun _ => false
    typeof := fun v => v
    instanceField := fun _ => none
    unwrapUnionall := fun v => v
    nameWrapper := fun v => v
    anyType := 0 }

/-- A concrete value model for witnesses in which every value is a
concrete type (so every finalizer is classified permanent). -/
def M1 : ValueModel :=
  { isConcreteType := fun _ => true
    isImmutable := fun _ => true
    isUnionall := fun _ => false
    isDatatype := fun _ => false
    typeof := fun v => v
    instanceField := fun _ => none
    unwrapUnionall := fun v => v
    nameWrapper := fun v => v
    anyType := 0 }

/-- The all-empty trampoline-cache state. -/
def st0 : TState := ⟨[], [], [], [], 0⟩

/-- Claim C1: on the path that builds a new record, the record is
classified permanent exactly when the finalizer is a concrete type, or is
the canonical instance of its own type, or is a unionall whose unwrapped
body is a datatype whose name's canonical wrapper equals the finalizer;
exactly the non-permanent records are inserted into the weak `trampolines`
registry and get a GC finalizer callback registered, and for a permanent
record the registry and the finalizer registrations are untouched. -/
theorem trampoline_permanence (M : ValueModel) (inst : JV → Except Unit JV)
    (init_trampoline : Nat → Nat) (f : JV) (fill : List JV) (valsId : Nat)
    (finalizer : JV) (st : TState) (t : Nat)
    (hmiss : lookupTramp st fill valsId f = none)
    (hok : (jl_get_cfunction_trampoline M inst init_trampoline f fill valsId finalizer
      st).1 = Except.ok t) :
    ((Ev.putRegistry ∈ (jl_get_cfunction_trampoline M inst init_trampoline f fill valsId
        finalizer st).2.2) ↔ ¬ permSpec M finalizer) ∧
    ((Ev.regFinalizer ∈ (jl_get_cfunction_trampoline M inst init_trampoline f fill valsId
        finalizer st).2.2) ↔ ¬ permSpec M finalizer) ∧
    (permSpec M finalizer →
      (jl_get_cfunction_trampoline M inst init_trampoline f fill valsId finalizer
        st).2.1.registry = st.registry ∧
      (jl_get_cfunction_trampoline M inst init_trampoline f fill valsId finalizer
        st).2.1.gcFinalizers = st.gcFinalizers) ∧
    (¬ permSpec M finalizer →
      ∃ a, (jl_get_cfunction_trampoline M inst init_trampoline f fill valsId finalizer
          st).2.1.registry = aput finalizer a st.registry ∧
        (jl_get_cfunction_trampoline M inst init_trampoline f fill valsId finalizer
          st).2.1.gcFinalizers = finalizer :: st.gcFinalizers) := by
  cases hspec : specLoop M inst fill with
  | error evs =>
    rw [jl_get_cfunction_trampoline_raise M inst init_trampoline f fill valsId finalizer
      st evs hmiss hspec] at hok
    exact absurd hok (by simp)
  | ok p =>
    obtain ⟨cells, evs⟩ := p
    rw [jl_get_cfunction_trampoline_build M inst init_trampoline f fill valsId finalizer
      st cells evs hmiss hspec]
    have hins := ensureInner_trace st fill valsId
    have hevs := specLoop_ok_events M inst fill cells evs hspec
    have hinner : Ev.putRegistry ∉ (ensureInner st fill valsId).2 ∧
        Ev.regFinalizer ∉ (ensureInner st fill valsId).2 := by
      rcases hins with h | h <;> rw [h] <;> simp
    have hevs2 : Ev.putRegistry ∉ evs ∧ Ev.regFinalizer ∉ evs := by
      constructor <;> intro hmem <;> exact absurd (hevs _ hmem) (by simp)
    by_cases hp : permanentFlag M finalizer
    · have hP : permSpec M finalizer := (permanentFlag_iff M finalizer).mp hp
      rw [hp]
      simp only [if_true]
      refine ⟨?_, ?_, ?_, ?_⟩
      · simp [hinner.1, hevs2.1, hP]
      · simp [hinner.2, hevs2.2, hP]
      · intro _
        rw [commitTramp_registry, commitTramp_gcFinalizers]
        exact ⟨ensureInner_registry st fill valsId, ensureInner_gcFinalizers st fill valsId⟩
      · intro hnp
        exact absurd hP hnp
    · have hP : ¬ permSpec M finalizer := fun hc =>
        hp ((permanentFlag_iff M finalizer).mpr hc)
      rw [if_neg hp, if_neg hp]
      refine ⟨?_, ?_, ?_, ?_⟩
      · simp [hinner.1, hevs2.1, hP]
      · simp [hinner.2, hevs2.2, hP]
      · intro hc
        exact absurd hc hP
      · intro _
        refine ⟨Cell.ptr (ensureInner st fill valsId).1.nextPtr :: Cell.val f :: cells,
          ?_, ?_⟩
        · simp only [commitTramp_registry, ensureInner_registry]
        · simp only [commitTramp_gcFinalizers, ensureInner_gcFinalizers]

/-- Witness for C1: a non-permanent finalizer at a concrete input is put
in the registry and gets a finalizer callback. -/
theorem trampoline_permanence_witness :
    ((Ev.putRegistry ∈ (jl_get_cfunction_trampoline M0 (fun x => Except.ok x)
        (fun p => p) 3 [] 7 9 st0).2.2) ↔ ¬ permSpec M0 9) ∧
    ((Ev.regFinalizer ∈ (jl_get_cfunction_trampoline M0 (fun x => Except.ok x)
        (fun p => p) 3 [] 7 9 st0).2.2) ↔ ¬ permSpec M0 9) ∧
    (permSpec M0 9 →
      (jl_get_cfunction_trampoline M0 (fun x => Except.ok x) (fun p => p) 3 [] 7 9
        st0).2.1.registry = st0.registry ∧
      (jl_get_cfunction_trampoline M0 (fun x => Except.ok x) (fun p => p) 3 [] 7 9
        st0).2.1.gcFinalizers = st0.gcFinalizers) ∧
    (¬ permSpec M0 9 →
      ∃ a, (jl_get_cfunction_trampoline M0 (fun x => Except.ok x) (fun p => p) 3 [] 7 9
          st0).2.1.registry = aput 9 a st0.registry ∧
        (jl_get_cfunction_trampoline M0 (fun x => Except.ok x) (fun p => p) 3 [] 7 9
          st0).2.1.gcFinalizers = 9 :: st0.gcFinalizers) :=
  trampoline_permanence M0 (fun x => Except.ok x) (fun p => p) 3 [] 7 9 st0 0
    (by decide) rfl

/-- Counterexample for claim C2 as stated: when the specialization
evaluator raises on the only formal parameter, the error is re-raised, but
the cache is NOT left exactly as it was before the call — a fresh empty
inner cache has been inserted under the binding-values identity. -/
theorem trampoline_rollback_counterexample :
    (jl_get_cfunction_trampoline M0 (fun _ => Except.error ()) (fun p => p) 3 [5] 7 9
      st0).1 = Except.error () ∧
    (jl_get_cfunction_trampoline M0 (fun _ => Except.error ()) (fun p => p) 3 [5] 7 9
      st0).2.1 ≠ st0 ∧
    (jl_get_cfunction_trampoline M0 (fun _ => Except.error ()) (fun p => p) 3 [5] 7 9
      st0).2.1.root = [(7, RootEntry.table [])] := by
  refine ⟨rfl, ?_, rfl⟩
  decide

/-- Claim C2 (amended): if the specialization evaluator raises, the error
is re-raised, the partially filled parameter array is freed (every
array allocation in the trace has a matching free, and the set of live
arrays is unchanged), no cache entry is created for any (closure,
binding-values) pair, and the weak registry and finalizer registrations
are untouched; however the cache root may have gained a fresh empty inner
cache under the binding-values identity, so it is not necessarily exactly
as before the call. -/
theorem trampoline_rollback (M : ValueModel) (inst : JV → Except Unit JV)
    (init_trampoline : Nat → Nat) (f : JV) (fill : List JV) (valsId : Nat)
    (finalizer : JV) (st : TState)
    (hwf : ∀ x, alookup valsId st.root ≠ some (RootEntry.tramp x))
    (herr : (jl_get_cfunction_trampoline M inst init_trampoline f fill valsId finalizer
      st).1 = Except.error ()) :
    (jl_get_cfunction_trampoline M inst init_trampoline f fill valsId finalizer
      st).2.1.registry = st.registry ∧
    (jl_get_cfunction_trampoline M inst init_trampoline f fill valsId finalizer
      st).2.1.gcFinalizers = st.gcFinalizers ∧
    (jl_get_cfunction_trampoline M inst init_trampoline f fill valsId finalizer
      st).2.1.arrays = st.arrays ∧
    ((jl_get_cfunction_trampoline M inst init_trampoline f fill valsId finalizer
      st).2.2.count Ev.allocArray
      = (jl_get_cfunction_trampoline M inst init_trampoline f fill valsId finalizer
        st).2.2.count Ev.freeArray) ∧
    (∀ v g, pairEntry (jl_get_cfunction_trampoline M inst init_trampoline f fill valsId
      finalizer st).2.1 v g = pairEntry st v g) ∧
    (∀ g, directEntry (jl_get_cfunction_trampoline M inst init_trampoline f fill valsId
      finalizer st).2.1 g = directEntry st g) := by
  cases hl : lookupTramp st fill valsId f with
  | some t =>
    rw [jl_get_cfunction_trampoline_hit M inst init_trampoline f fill valsId finalizer
      st t hl] at herr
    exact absurd herr (by simp)
  | none =>
    cases hspec : specLoop M inst fill with
    | ok p =>
      obtain ⟨cells, evs⟩ := p
      rw [jl_get_cfunction_trampoline_build M inst init_trampoline f fill valsId
        finalizer st cells evs hl hspec] at herr
      by_cases hp : permanentFlag M finalizer <;> simp [hp] at herr
    | error evs =>
      rw [jl_get_cfunction_trampoline_raise M inst init_trampoline f fill valsId
        finalizer st evs hl hspec]
      refine ⟨ensureInner_registry st fill valsId, ensureInner_gcFinalizers st fill valsId,
        ensureInner_arrays st fill valsId, ?_, ?_, ?_⟩
      · have hevs := specLoop_error_events M inst fill evs hspec
        have hca : evs.count Ev.allocArray = 0 := by
          rw [List.count_eq_zero]
          intro hmem
          exact absurd (hevs _ hmem) (by simp)
        have hcf : evs.count Ev.freeArray = 0 := by
          rw [List.count_eq_zero]
          intro hmem
          exact absurd (hevs _ hmem) (by simp)
        rcases ensureInner_trace st fill valsId with h | h <;>
          simp [h, List.count_append, List.count_cons, hca, hcf]
      · intro v g
        exact pairEntry_ensureInner st fill valsId v g
      · intro g
        exact directEntry_ensureInner st fill valsId hwf g

/-- Witness for C2 (amended) at a concrete always-raising evaluator. -/
theorem trampoline_rollback_witness :
    (jl_get_cfunction_trampoline M0 (fun _ => Except.error ()) (fun p => p) 3 [5] 7 9
      st0).2.1.registry = st0.registry ∧
    (jl_get_cfunction_trampoline M0 (fun _ => Except.error ()) (fun p => p) 3 [5] 7 9
      st0).2.1.gcFinalizers = st0.gcFinalizers ∧
    (jl_get_cfunction_trampoline M0 (fun _ => Except.error ()) (fun p => p) 3 [5] 7 9
      st0).2.1.arrays = st0.arrays ∧
    ((jl_get_cfunction_trampoline M0 (fun _ => Except.error ()) (fun p => p) 3 [5] 7 9
      st0).2.2.count Ev.allocArray
      = (jl_get_cfunction_trampoline M0 (fun _ => Except.error ()) (fun p => p) 3 [5] 7 9
        st0).2.2.count Ev.freeArray) ∧
    (∀ v g, pairEntry (jl_get_cfunction_trampoline M0 (fun _ => Except.error ())
      (fun p => p) 3 [5] 7 9 st0).2.1 v g = pairEntry st0 v g) ∧
    (∀ g, directEntry (jl_get_cfunction_trampoline M0 (fun _ => Except.error ())
      (fun p => p) 3 [5] 7 9 st0).2.1 g = directEntry st0 g) :=
  trampoline_rollback M0 (fun _ => Except.error ()) (fun p => p) 3 [5] 7 9 st0
    (fun x h => by simp [st0, alookup] at h) rfl

/-- Claim C4: on a cache miss with `n` formal parameters, the call builds a
parameter array of `n + 2` cells — cell 0 the native trampoline storage
pointer, cell 1 the closure identity, and cell `i + 2` the instantiated
value of formal parameter `i`, replaced by the `NULL` "unspecialized"
sentinel exactly when that value is not the universal top type and is not
both a concrete type and an immutable type. -/
theorem trampoline_record_cells (M : ValueModel) (inst : JV → Except Unit JV)
    (init_trampoline : Nat → Nat) (f : JV) (fill : List JV) (valsId : Nat)
    (finalizer : JV) (st : TState) (t : Nat)
    (hmiss : lookupTramp st fill valsId f = none)
    (hok : (jl_get_cfunction_trampoline M inst init_trampoline f fill valsId finalizer
      st).1 = Except.ok t) :
    ∃ nval : List Cell,
      (jl_get_cfunction_trampoline M inst init_trampoline f fill valsId finalizer
        st).2.1.arrays = nval :: st.arrays ∧
      nval.length = fill.length + 2 ∧
      nval[0]? = some (Cell.ptr st.nextPtr) ∧
      nval[1]? = some (Cell.val f) ∧
      ∀ i (hi : i < fill.length), ∃ w,
        inst (fill.get ⟨i, hi⟩) = Except.ok w ∧
        nval[i + 2]? = some
          (if w ≠ M.anyType ∧ ¬(M.isConcreteType w = true ∧ M.isImmutable w = true)
           then Cell.null else Cell.val w) := by
  cases hspec : specLoop M inst fill with
  | error evs =>
    rw [jl_get_cfunction_trampoline_raise M inst init_trampoline f fill valsId finalizer
      st evs hmiss hspec] at hok
    exact absurd hok (by simp)
  | ok p =>
    obtain ⟨cells, evs⟩ := p
    rw [jl_get_cfunction_trampoline_build M inst init_trampoline f fill valsId finalizer
      st cells evs hmiss hspec]
    refine ⟨Cell.ptr st.nextPtr :: Cell.val f :: cells, ?_, ?_, by simp, by simp, ?_⟩
    · by_cases hp : permanentFlag M finalizer <;>
        simp [hp, commitTramp_arrays, ensureInner_arrays, ensureInner_nextPtr]
    · obtain ⟨hl, -⟩ := specLoop_ok_cells M inst fill cells evs hspec
      simp [hl]
    · intro i hi
      obtain ⟨-, hg⟩ := specLoop_ok_cells M inst fill cells evs hspec
      obtain ⟨w, hw, hc⟩ := hg i hi
      refine ⟨w, hw, ?_⟩
      have : (Cell.ptr st.nextPtr :: Cell.val f :: cells)[i + 2]? = cells[i]? := by
        simp
      rw [this, hc, specCell_eq_claim]

/-- Witness for C4 at a concrete one-parameter closure whose instantiated
parameter value is neither the top type nor concrete-and-immutable. -/
theorem trampoline_record_cells_witness :
    ∃ nval : List Cell,
      (jl_get_cfunction_trampoline M0 (fun x => Except.ok x) (fun p => p) 3 [5] 7 9
        st0).2.1.arrays = nval :: st0.arrays ∧
      nval.length = ([5] : List JV).length + 2 ∧
      nval[0]? = some (Cell.ptr st0.nextPtr) ∧
      nval[1]? = some (Cell.val 3) ∧
      ∀ i (hi : i < ([5] : List JV).length), ∃ w,
        (fun x => Except.ok x : JV → Except Unit JV) (([5] : List JV).get ⟨i, hi⟩)
          = Except.ok w ∧
        nval[i + 2]? = some
          (if w ≠ M0.anyType ∧ ¬(M0.isConcreteType w = true ∧ M0.isImmutable w = true)
           then Cell.null else Cell.val w) :=
  trampoline_record_cells M0 (fun x => Except.ok x) (fun p => p) 3 [5] 7 9 st0 0
    (by decide) rfl

/-- Claim C5: after a call for (closure, binding-values identity) has
returned an entry point, a second call with the same pair finds the record
in the (inner) cache and returns the stored entry point immediately: same
result, unchanged state, and an empty effect trace (no specialization
call, no allocation, no cache, registry or finalizer mutation) — so one
record per pair in a sequential execution. -/
theorem trampoline_second_call (M : ValueModel) (inst : JV → Except Unit JV)
    (init_trampoline : Nat → Nat) (f : JV) (fill : List JV) (valsId : Nat)
    (finalizer : JV) (st st1 : TState) (t : Nat) (tr : List Ev)
    (hfst : jl_get_cfunction_trampoline M inst init_trampoline f fill valsId finalizer st
      = (Except.ok t, st1, tr)) :
    jl_get_cfunction_trampoline M inst init_trampoline f fill valsId finalizer st1
      = (Except.ok t, st1, []) := by
  cases hl : lookupTramp st fill valsId f with
  | some t2 =>
    rw [jl_get_cfunction_trampoline_hit M inst init_trampoline f fill valsId finalizer
      st t2 hl] at hfst
    obtain ⟨h1, h2, -⟩ : t2 = t ∧ st = st1 ∧ [] = tr := by simpa using hfst
    subst h1
    rw [← h2]
    exact jl_get_cfunction_trampoline_hit M inst init_trampoline f fill valsId finalizer
      st t2 hl
  | none =>
    cases hspec : specLoop M inst fill with
    | error evs =>
      rw [jl_get_cfunction_trampoline_raise M inst init_trampoline f fill valsId
        finalizer st evs hl hspec] at hfst
      exact absurd hfst (by simp)
    | ok p =>
      obtain ⟨cells, evs⟩ := p
      rw [jl_get_cfunction_trampoline_build M inst init_trampoline f fill valsId
        finalizer st cells evs hl hspec] at hfst
      by_cases hp : permanentFlag M finalizer
      · rw [if_pos hp, if_pos hp] at hfst
        obtain ⟨h1, h2, -⟩ := by simpa using hfst
        rw [← h2]
        refine jl_get_cfunction_trampoline_hit M inst init_trampoline f fill valsId
          finalizer _ t ?_
        rw [← h1]
        exact lookupTramp_commitTramp_self _ fill valsId f _
      · rw [if_neg hp, if_neg hp] at hfst
        obtain ⟨h1, h2, -⟩ := by simpa using hfst
        rw [← h2]
        refine jl_get_cfunction_trampoline_hit M inst init_trampoline f fill valsId
          finalizer _ t ?_
        rw [← h1]
        rw [← lookupTramp_root_only _ _ rfl fill valsId f]
        exact lookupTramp_commitTramp_self _ fill valsId f _

/-- Witness for C5: the concrete second call after a concrete first call. -/
theorem trampoline_second_call_witness :
    jl_get_cfunction_trampoline M0 (fun x => Except.ok x) (fun p => p) 3 [] 7 9
        (⟨[(3, RootEntry.tramp 0)], [(9, [Cell.ptr 0, Cell.val 3])], [9],
          [[Cell.ptr 0, Cell.val 3]], 1⟩ : TState)
      = (Except.ok 0,
         (⟨[(3, RootEntry.tramp 0)], [(9, [Cell.ptr 0, Cell.val 3])], [9],
           [[Cell.ptr 0, Cell.val 3]], 1⟩ : TState), []) :=
  trampoline_second_call M0 (fun x => Except.ok x) (fun p => p) 3 [] 7 9 st0
    (⟨[(3, RootEntry.tramp 0)], [(9, [Cell.ptr 0, Cell.val 3])], [9],
      [[Cell.ptr 0, Cell.val 3]], 1⟩ : TState) 0
    [Ev.allocArray, Ev.allocTramp, Ev.putRegistry, Ev.regFinalizer] rfl

/-- Claim C6: `trampoline_deleter` looks its key up in the weak registry
and removes the entry; the entry's absence is the fatal assertion failure
(modelled `none`), not a recoverable outcome; on success it frees the
native trampoline storage (cell 0 of the record) first and the parameter
array itself second, and afterwards the key is gone from the registry
while every other key is untouched. -/
theorem trampoline_deleter_spec (trampolines : List (JV × List Cell)) (o : JV) :
    (trampoline_deleter trampolines o = none ↔ alookup o trampolines = none) ∧
    (∀ nvals, alookup o trampolines = some nvals →
      trampoline_deleter trampolines o
        = some (aremove o trampolines, [Freed.cell0 nvals.head?, Freed.array nvals]) ∧
      alookup o (aremove o trampolines) = (none : Option (List Cell)) ∧
      ∀ k, k ≠ o → alookup k (aremove o trampolines) = alookup k trampolines) := by
  constructor
  · unfold trampoline_deleter
    cases h : alookup o trampolines <;> simp [h]
  · intro nvals h
    refine ⟨by unfold trampoline_deleter; rw [h], alookup_aremove_self o trampolines, ?_⟩
    intro k hk
    exact alookup_aremove_ne trampolines hk

/-- Witness for C6 at a concrete one-entry registry. -/
theorem trampoline_deleter_spec_witness :
    trampoline_deleter [(5, [Cell.ptr 2, Cell.val 3])] 5
      = some (aremove 5 [(5, [Cell.ptr 2, Cell.val 3])],
          [Freed.cell0 (some (Cell.ptr 2)), Freed.array [Cell.ptr 2, Cell.val 3]]) ∧
    alookup 5 (aremove 5 [(5, [Cell.ptr 2, Cell.val 3])]) = (none : Option (List Cell)) :=
  ⟨((trampoline_deleter_spec [(5, [Cell.ptr 2, Cell.val 3])] 5).2
      [Cell.ptr 2, Cell.val 3] (by decide)).1,
   ((trampoline_deleter_spec [(5, [Cell.ptr 2, Cell.val 3])] 5).2
      [Cell.ptr 2, Cell.val 3] (by decide)).2.1⟩

/-- With an empty formal-parameter list the trampoline lookup is exactly
the single-level direct lookup under the root. -/
theorem lookupTramp_nil_eq_directEntry (st : TState) (valsId f : Nat) :
    lookupTramp st [] valsId f = directEntry st f := by
  simp [lookupTramp, directEntry]

/-- A direct-entry insertion cannot make an inner table appear in the root. -/
theorem table_after_aput_tramp (root : List (Nat × RootEntry)) (f e v : Nat)
    (m : List (Nat × Nat))
    (hm : alookup v (aput f (RootEntry.tramp e) root) = some (RootEntry.table m)) :
    alookup v root = some (RootEntry.table m) := by
  by_cases hv : v = f
  · subst hv
    rw [alookup_aput_self] at hm
    exact absurd hm (by simp)
  · rwa [alookup_aput_ne _ _ hv] at hm

/-- With the empty formal-parameter list, the build path commits directly
under the root: the final root is the direct-entry insertion. -/
theorem build_root_nil (M : ValueModel) (inst : JV → Except Unit JV)
    (init_trampoline : Nat → Nat) (f : JV) (valsId : Nat) (finalizer : JV)
    (st : TState) (hmiss : lookupTramp st [] valsId f = none) :
    (jl_get_cfunction_trampoline M inst init_trampoline f [] valsId finalizer
      st).2.1.root
      = aput f (RootEntry.tramp (init_trampoline st.nextPtr)) st.root := by
  rw [jl_get_cfunction_trampoline_build M inst init_trampoline f [] valsId finalizer
    st [] [] hmiss (by simp [specLoop])]
  by_cases hp : permanentFlag M finalizer <;> simp [hp, commitTramp, ensureInner]

/-- Claim C8: with the canonical empty formal-parameter list the call is a
single-level lookup keyed by closure identity directly under the root
cache: no inner cache is ever allocated, no inner table appears in the
root that was not already there, and a stored direct entry is returned
immediately; an inner-cache allocation can only happen for a non-empty
formal-parameter list, and does happen when the binding-values identity is
not yet present in the root. -/
theorem trampoline_empty_fill_single_level (M : ValueModel) (inst : JV → Except Unit JV)
    (init_trampoline : Nat → Nat) (f : JV) (fill : List JV) (valsId : Nat)
    (finalizer : JV) (st : TState) :
    (fill = [] →
      Ev.allocInner ∉ (jl_get_cfunction_trampoline M inst init_trampoline f fill valsId
        finalizer st).2.2 ∧
      (∀ v m, alookup v (jl_get_cfunction_trampoline M inst init_trampoline f fill valsId
          finalizer st).2.1.root = some (RootEntry.table m) →
        alookup v st.root = some (RootEntry.table m)) ∧
      (∀ t, directEntry st f = some t →
        jl_get_cfunction_trampoline M inst init_trampoline f fill valsId finalizer st
          = (Except.ok t, st, []))) ∧
    (Ev.allocInner ∈ (jl_get_cfunction_trampoline M inst init_trampoline f fill valsId
      finalizer st).2.2 → fill ≠ []) ∧
    (fill ≠ [] → alookup valsId st.root = none →
      Ev.allocInner ∈ (jl_get_cfunction_trampoline M inst init_trampoline f fill valsId
        finalizer st).2.2) := by
  have hA : fill = [] →
      Ev.allocInner ∉ (jl_get_cfunction_trampoline M inst init_trampoline f fill valsId
        finalizer st).2.2 ∧
      (∀ v m, alookup v (jl_get_cfunction_trampoline M inst init_trampoline f fill valsId
          finalizer st).2.1.root = some (RootEntry.table m) →
        alookup v st.root = some (RootEntry.table m)) ∧
      (∀ t, directEntry st f = some t →
        jl_get_cfunction_trampoline M inst init_trampoline f fill valsId finalizer st
          = (Except.ok t, st, [])) := by
    intro hf
    subst hf
    cases hl : lookupTramp st [] valsId f with
    | some t =>
      rw [jl_get_cfunction_trampoline_hit M inst init_trampoline f [] valsId finalizer
        st t hl]
      refine ⟨by simp, fun v m hm => hm, ?_⟩
      intro t2 ht2
      rw [lookupTramp_nil_eq_directEntry st valsId f, ht2] at hl
      obtain rfl : t2 = t := by simpa using hl
      rfl
    | none =>
      have hdir : ∀ t2, directEntry st f = some t2 → False := by
        intro t2 ht2
        rw [lookupTramp_nil_eq_directEntry st valsId f, ht2] at hl
        exact absurd hl (by simp)
      refine ⟨?_, ?_, fun t2 ht2 => absurd (hdir t2 ht2) (by simp)⟩
      · rw [jl_get_cfunction_trampoline_build M inst init_trampoline f [] valsId
          finalizer st [] [] hl (by simp [specLoop])]
        by_cases hp : permanentFlag M finalizer <;> simp [hp, ensureInner]
      · intro v m hm
        rw [build_root_nil M inst init_trampoline f valsId finalizer st hl] at hm
        exact table_after_aput_tramp st.root f (init_trampoline st.nextPtr) v m hm
  refine ⟨hA, ?_, ?_⟩
  · intro hmem hf
    exact (hA hf).1 hmem
  · intro hf habs
    have hens : (ensureInner st fill valsId).2 = [Ev.allocInner] := by
      simp [ensureInner, hf, habs]
    cases hl : lookupTramp st fill valsId f with
    | some t =>
      exfalso
      simp only [lookupTramp, if_neg hf, habs] at hl
      exact absurd hl (by simp)
    | none =>
      cases hspec : specLoop M inst fill with
      | error evs =>
        rw [jl_get_cfunction_trampoline_raise M inst init_trampoline f fill valsId
          finalizer st evs hl hspec]
        simp [hens]
      | ok p =>
        obtain ⟨cells, evs⟩ := p
        rw [jl_get_cfunction_trampoline_build M inst init_trampoline f fill valsId
          finalizer st cells evs hl hspec]
        simp [hens]

/-- Witness for C8: a concrete empty-parameter call allocates no inner
cache and returns the stored direct entry. -/
theorem trampoline_empty_fill_single_level_witness :
    Ev.allocInner ∉ (jl_get_cfunction_trampoline M0 (fun x => Except.ok x) (fun p => p)
      3 [] 7 9 (⟨[(3, RootEntry.tramp 4)], [], [], [], 0⟩ : TState)).2.2 ∧
    jl_get_cfunction_trampoline M0 (fun x => Except.ok x) (fun p => p) 3 [] 7 9
        (⟨[(3, RootEntry.tramp 4)], [], [], [], 0⟩ : TState)
      = (Except.ok 4, (⟨[(3, RootEntry.tramp 4)], [], [], [], 0⟩ : TState), []) :=
  ⟨((trampoline_empty_fill_single_level M0 (fun x => Except.ok x) (fun p => p) 3 [] 7 9
      (⟨[(3, RootEntry.tramp 4)], [], [], [], 0⟩ : TState)).1 rfl).1,
   (((trampoline_empty_fill_single_level M0 (fun x => Except.ok x) (fun p => p) 3 [] 7 9
      (⟨[(3, RootEntry.tramp 4)], [], [], [], 0⟩ : TState)).1 rfl).2.2 4 (by decide))⟩
